import Mathlib

/-
Verification of the mach_five scheduled trade dispatcher.

This file is a shallow embedding of the program parts that the checked
properties talk about, translated from the Go sources:

  internal/cache/redis.go        StoreOrder, GetOrdersDueForExecution,
                                 RemoveOrder, TryLock, ReleaseLock
  internal/trigger/trigger.go    executeOrder, removeOrder
  internal/broker/broker.go      BrokerManager.ExecuteOrder (rate gate, then broker)
  internal/broker/market_hours.go  MarketHours.IsMarketOpen, ShouldUseAMO
  internal/broker/kite.go        order placement endpoints, token refresh endpoint
  internal/reader/sheets.go      parseRows lot splitting, AMO stamping, past filter
  internal/config/config.go      LoadConfig and loadBrokerConfigFromFile precedence

Modelling conventions:
  - Instants are epoch seconds as Nat.  The scheduled instants the ingester
    builds have whole-second resolution in the source, so second granularity
    is exact for the scheduling comparisons.
  - The Redis key space is modelled with association lists and the usual
    key-value semantics: SET and ZADD replace the value stored under an
    existing key, DEL and ZREM drop the key.  Iteration order of the sorted
    set is not modelled; no checked property depends on it.
  - JSON encoding and decoding of cache entries is dropped: entries are
    stored typed, so the FromJSON-failure branch of GetOrdersDueForExecution
    is unreachable in the model.
  - Network, Redis transport and the per-order execution lock backend are
    nondeterministic: the dispatcher model takes the lock outcome and the
    broker outcome as oracle arguments and records the externally visible
    steps as an event trace.
-/

namespace MachFive

/-- Instants are epoch seconds (UTC). -/
abbrev Instant := Nat

/-- Order from internal/models/order.go.  Price is a decimal carried opaquely
through the pipeline (no arithmetic on it is modelled). -/
structure Order where
  id : String
  symbol : String
  exchange : String
  price : Int
  quantity : Nat
  orderType : String
  side : String
  scheduledTime : Instant
  createdAt : Instant
  isAMO : Bool
  deriving Repr, DecidableEq

/-- OrderCacheEntry from internal/models/order.go: the JSON payload stored
under the key order:id. -/
structure OrderCacheEntry where
  order : Order
  expiryTime : Instant
  createdAt : Instant
  deriving Repr, DecidableEq

/-- Lookup of a key in a Redis-style key space, modelled as an association
list (Redis GET). -/
def lookupKey {α : Type} : List (String × α) → String → Option α
  | [], _ => none
  | (k1, v) :: rest, k => if k1 = k then some v else lookupKey rest k

/-- Redis SET and ZADD semantics on one key: replace the value stored under
the key when present, append a fresh entry otherwise. -/
def setKey {α : Type} : List (String × α) → String → α → List (String × α)
  | [], k, v => [(k, v)]
  | (k1, v1) :: rest, k, v =>
    if k1 = k then (k, v) :: rest else (k1, v1) :: setKey rest k v

/-- Redis DEL and ZREM semantics: drop the entry stored under the key. -/
def delKey {α : Type} (l : List (String × α)) (k : String) : List (String × α) :=
  l.filter (fun p => decide (p.1 ≠ k))

/-- Number of entries stored under a key (used to state uniqueness). -/
def countKey {α : Type} (l : List (String × α)) (k : String) : Nat :=
  (l.filter (fun p => decide (p.1 = k))).length

/-- State of the Redis-backed OrderStore: the order:id records and the
pending_orders sorted set (member, score = scheduled time in epoch seconds).
Lock keys are handled by the dispatch oracle, see executeOrder below. -/
structure StoreState where
  records : List (String × OrderCacheEntry)
  pending : List (String × Instant)
  deriving Repr, DecidableEq

/-- StoreOrder from internal/cache/redis.go.  The Go code computes
ttl = expiryTime - now and rejects ttl being at most zero, which for instants
is exactly expiryTime being at most now; on rejection nothing has been
written.  On success it SETs the record and ZADDs the member with score equal
to the scheduled time.  The error outcome is returned next to the resulting
store so that the untouched-on-failure behaviour is expressible. -/
def StoreOrder (s : StoreState) (order : Order) (expiryTime now : Instant) :
    Except String Unit × StoreState :=
  if expiryTime ≤ now then
    (Except.error "expiry time is in the past", s)
  else
    let entry : OrderCacheEntry :=
      { order := order, expiryTime := expiryTime, createdAt := now }
    ( Except.ok (),
      { records := setKey s.records order.id entry,
        pending := setKey s.pending order.id order.scheduledTime } )

/-- RemoveOrder from internal/cache/redis.go: DEL the record, ZREM the
pending member. -/
def RemoveOrder (s : StoreState) (orderID : String) : StoreState :=
  { records := delKey s.records orderID, pending := delKey s.pending orderID }

/-- Identifiers returned by ZRANGEBYSCORE pending_orders 0 now: members whose
score is at most now. -/
def dueIds (s : StoreState) (now : Instant) : List String :=
  (s.pending.filter (fun p => decide (p.2 ≤ now))).map (fun p => p.1)

/-- Loop body of GetOrdersDueForExecution over the id list fetched from the
sorted set: a missing record gets its dangling member ZREMed; a record whose
expiry lies strictly before now (the Go test is now.After(entry.ExpiryTime))
is evicted via RemoveOrder; otherwise its order is returned. -/
def processDue (now : Instant) : StoreState → List String → List Order × StoreState
  | s, [] => ([], s)
  | s, orderID :: rest =>
    match lookupKey s.records orderID with
    | none =>
      processDue now { s with pending := delKey s.pending orderID } rest
    | some entry =>
      if entry.expiryTime < now then
        processDue now (RemoveOrder s orderID) rest
      else
        let r := processDue now s rest
        (entry.order :: r.1, r.2)

/-- GetOrdersDueForExecution from internal/cache/redis.go. -/
def GetOrdersDueForExecution (s : StoreState) (now : Instant) :
    List Order × StoreState :=
  processDue now s (dueIds s now)

/-- Well-formedness of a store state as produced by StoreOrder: every record
is stored under its own order id, and every pending member whose record
exists carries the record's scheduled time as its score.  Decidable so that
concrete states can be checked by evaluation. -/
def wfStore (s : StoreState) : Bool :=
  s.records.all (fun p => decide (p.2.order.id = p.1)) &&
  s.pending.all (fun p =>
    match lookupKey s.records p.1 with
    | some entry => decide (entry.order.scheduledTime = p.2)
    | none => true)

/-- Minutes from midnight of an instant in the market timezone, IST = UTC
plus 19800 seconds (both IsMarketOpen and the reader's shouldUseAMO convert
to Asia/Kolkata before extracting hour and minute). -/
def istMinutesFromMidnight (t : Instant) : Nat :=
  ((t + 19800) % 86400) / 60

/-- Weekday of an instant in IST using the Go numbering (0 Sunday .. 6
Saturday); epoch day zero, 1970-01-01, was a Thursday (4). -/
def istWeekday (t : Instant) : Nat :=
  ((t + 19800) / 86400 + 4) % 7

/-- IsMarketOpen from internal/broker/market_hours.go: weekdays 09:00 to
15:30 IST, Saturday and Sunday closed; the close bound is exclusive. -/
def IsMarketOpen (t : Instant) : Bool :=
  let weekday := istWeekday t
  if weekday = 6 ∨ weekday = 0 then
    false
  else
    let minutesFromMidnight := istMinutesFromMidnight t
    decide (540 ≤ minutesFromMidnight ∧ minutesFromMidnight < 930)

/-- ShouldUseAMO from internal/broker/market_hours.go (the MarketClock
classification being different from Open). -/
def marketHoursShouldUseAMO (t : Instant) : Bool :=
  !IsMarketOpen t

/-- shouldUseAMO from internal/reader/sheets.go: the ingester's own AMO rule.
It checks only the time of day, 09:00 (540 minutes) to 15:30 (930 minutes)
IST, and has no weekday test. -/
def shouldUseAMO (t : Instant) : Bool :=
  let minutesFromMidnight := istMinutesFromMidnight t
  decide (minutesFromMidnight < 540 ∨ 930 ≤ minutesFromMidnight)

/-- GenerateOrderID from internal/models/order.go: symbol, a colon, and the
RFC3339 rendering of the scheduled time.  The RFC3339 rendering is modelled
by the decimal rendering of the epoch-second instant; both renderings are
injective functions of the instant. -/
def GenerateOrderID (symbol : String) (scheduledTime : Instant) : String :=
  symbol ++ ":" ++ Nat.repr scheduledTime

/-- Lots fallback from parseRows: an unparseable or non-positive lots cell
defaults to 1. -/
def clampLots (lotsRaw : Int) : Nat :=
  if lotsRaw ≤ 0 then 1 else lotsRaw.toNat

/-- Total-quantity fallback from parseRows: the final guard forces the total
quantity to at least 1. -/
def clampQuantity (totalQuantityRaw : Int) : Nat :=
  if totalQuantityRaw ≤ 0 then 1 else totalQuantityRaw.toNat

/-- Order-construction loop of parseRows (internal/reader/sheets.go): for
orderNum from 1 to lots, the first totalQuantity mod lots orders carry
baseQuantity + 1 and the rest carry baseQuantity = totalQuantity / lots; when
lots exceeds 1 the order number is appended to the generated id. -/
def buildRowOrders (symbol exchange side : String) (price : Int)
    (scheduledTime now : Instant) (totalQuantity lots : Nat) : List Order :=
  let baseQuantity := totalQuantity / lots
  let remainder := totalQuantity % lots
  (List.range lots).map (fun i =>
    let orderNum := i + 1
    let orderQuantity := if orderNum ≤ remainder then baseQuantity + 1 else baseQuantity
    let baseID := GenerateOrderID symbol scheduledTime
    let orderID := if 1 < lots then baseID ++ "-" ++ Nat.repr orderNum else baseID
    { id := orderID, symbol := symbol, exchange := exchange, price := price,
      quantity := orderQuantity, orderType := "LIMIT", side := side,
      scheduledTime := scheduledTime, createdAt := now,
      isAMO := shouldUseAMO scheduledTime })

/-- Per-row tail of parseRows, starting after the cell parsing: clamp lots
and total quantity, discard the row when its scheduled instant lies strictly
in the past (scheduledTime.Before(nowIST)), otherwise build the lot orders.
The raw arguments are the Atoi results for the quantity and lots cells. -/
def parseRowOrders (symbol exchange side : String) (price : Int)
    (scheduledTime now : Instant) (totalQuantityRaw lotsRaw : Int) : List Order :=
  let lots := clampLots lotsRaw
  let totalQuantity := clampQuantity totalQuantityRaw
  if scheduledTime < now then
    []
  else
    buildRowOrders symbol exchange side price scheduledTime now totalQuantity lots

/-- Caching loop of readAndCacheOrders: each produced order is stored with
expiry scheduled time plus the 10 second grace window; a failed store is
logged and skipped. -/
def ingestRow (s : StoreState) (orders : List Order) (now : Instant) : StoreState :=
  orders.foldl (fun st o => (StoreOrder st o (o.scheduledTime + 10) now).2) s

/-- Outcome of cache.TryLock as seen by the dispatcher: a backend error, the
lock acquired, or the lock already held elsewhere. -/
inductive LockResult where
  | backendError
  | acquired
  | alreadyHeld
  deriving Repr, DecidableEq

/-- Outcome of BrokerManager.ExecuteOrder as seen by the dispatcher: the rate
gate wait failed (context cancelled, no broker call), the broker call
returned an error, or it returned a result with the given success flag. -/
inductive BrokerOutcome where
  | gateCancelled
  | brokerError
  | completed (success : Bool)
  deriving Repr, DecidableEq

/-- Externally visible steps of one dispatch attempt, in program order. -/
inductive Event where
  | lockAttempt (result : LockResult)
  | rateGateWait
  | brokerCall
  | emitOutcome (success : Bool)
  | removeOrder
  | releaseLock
  deriving Repr, DecidableEq

/-- executeOrder from internal/trigger/trigger.go, with BrokerManager's
ExecuteOrder (internal/broker/broker.go) inlined.  The branches follow the
source: a TryLock error logs and calls removeOrder, then returns, before any
broker interaction; a false TryLock result logs and skips; once the lock is
acquired a ReleaseLock is deferred, ExecuteOrder first waits on the rate
limiter (an error there returns before the broker call), and on any error
from ExecuteOrder the profiling outcome is logged first and removeOrder runs
afterwards, while on the no-error path removeOrder runs before the profiling
outcome is logged.  emitOutcome stands for logProfilingMetrics, the
ExecutionOutcome emission. -/
def executeOrder (s : StoreState) (order : Order)
    (lock : LockResult) (broker : BrokerOutcome) : List Event × StoreState :=
  match lock with
  | .backendError =>
    ([Event.lockAttempt .backendError, Event.removeOrder], RemoveOrder s order.id)
  | .alreadyHeld =>
    ([Event.lockAttempt .alreadyHeld], s)
  | .acquired =>
    match broker with
    | .gateCancelled =>
      ([Event.lockAttempt .acquired, Event.rateGateWait,
        Event.emitOutcome false, Event.removeOrder, Event.releaseLock],
       RemoveOrder s order.id)
    | .brokerError =>
      ([Event.lockAttempt .acquired, Event.rateGateWait, Event.brokerCall,
        Event.emitOutcome false, Event.removeOrder, Event.releaseLock],
       RemoveOrder s order.id)
    | .completed success =>
      ([Event.lockAttempt .acquired, Event.rateGateWait, Event.brokerCall,
        Event.removeOrder, Event.emitOutcome success, Event.releaseLock],
       RemoveOrder s order.id)

/-- Recogniser for the outcome-emission event. -/
def isEmitOutcome : Event → Bool
  | .emitOutcome _ => true
  | _ => false

/-- Whether the first removal strictly precedes the first outcome emission in
a trace; false when either is missing. -/
def removalBeforeEmit (trace : List Event) : Bool :=
  match trace.findIdx? (fun e => decide (e = Event.removeOrder)),
        trace.findIdx? isEmitOutcome with
  | some i, some j => decide (i < j)
  | _, _ => false

/-- Form of an order request to the Kite adapter (kite.go KiteOrderRequest). -/
structure KiteOrderRequest where
  exchange : String
  tradingsymbol : String
  transactionType : String
  orderType : String
  variety : String
  quantity : Nat
  price : Int
  product : String
  validity : String
  deriving Repr, DecidableEq

/-- BaseURL defaulting in NewKiteBroker: an empty configured base URL falls
back to the production host. -/
def kiteEffectiveBaseURL (configuredBaseURL : String) : String :=
  if configuredBaseURL = "" then "https://kite.zerodha.com" else configuredBaseURL

/-- Endpoint used by placeAMOOrder in internal/broker/kite.go: the literal
in the source, independent of the broker's configured base URL. -/
def placeAMOOrderURL (baseURL : String) (orderReq : KiteOrderRequest) : String :=
  "https://api.kite.trade/orders/amo"

/-- Endpoint used by placeOrder in internal/broker/kite.go: an order with
variety amo is redirected to placeAMOOrder, every other order goes to the
literal regular-orders URL in the source, independent of the configured base
URL. -/
def placeOrderURL (baseURL : String) (orderReq : KiteOrderRequest) : String :=
  if orderReq.variety = "amo" then placeAMOOrderURL baseURL orderReq
  else "https://api.kite.trade/orders/regular"

/-- Endpoint used by refreshAccessToken in internal/broker/kite.go: the one
request built from the broker's base URL. -/
def refreshTokenURL (baseURL : String) : String :=
  baseURL ++ "/session/refresh_token"

/-- Rate limit options of the broker configuration. -/
structure RateLimitConfig where
  requestsPerSecond : Int
  burstSize : Int
  deriving Repr, DecidableEq

/-- Order splitting options of the broker configuration. -/
structure OrderSplittingConfig where
  maxOrderSize : Int
  enabled : Bool
  deriving Repr, DecidableEq

/-- Broker section of the loaded configuration (config.go BrokerConfig; the
Go field Type is brokerType here because Type is a Lean keyword). -/
structure BrokerConfig where
  configPath : String
  brokerType : String
  apiKey : String
  apiSecret : String
  baseURL : String
  rateLimit : RateLimitConfig
  orderSplitting : OrderSplittingConfig
  deriving Repr, DecidableEq

/-- Parsed contents of the broker config file (the anonymous fileConfig
struct in loadBrokerConfigFromFile); absent JSON fields decode to the zero
values, the empty string and zero. -/
structure FileBrokerConfig where
  fileType : String
  apiKey : String
  apiSecret : String
  baseURL : String
  rateLimit : RateLimitConfig
  orderSplitting : OrderSplittingConfig
  deriving Repr, DecidableEq

/-- getEnv from config.go: the environment value when non-empty, else the
default.  The environment is a total map where the empty string stands for
an unset variable, exactly as os.Getenv reports it. -/
def getEnvDefault (env : String → String) (key defaultValue : String) : String :=
  if env key = "" then defaultValue else env key

/-- strconv.Atoi with the error ignored, as the config loader uses it: the
parsed integer, or zero when unparseable. -/
def atoi (s : String) : Int :=
  (s.toInt?).getD 0

/-- Broker-relevant part of LoadConfig before the file pass: every option is
read from the environment with its documented default, and a non-positive
MAX_ORDER_SIZE falls back to 1000. -/
def loadBrokerFromEnv (env : String → String) : BrokerConfig :=
  let maxOrderSize := atoi (getEnvDefault env "MAX_ORDER_SIZE" "1000")
  { configPath := getEnvDefault env "BROKER_CONFIG_PATH" "./config/broker-config.json",
    brokerType := getEnvDefault env "BROKER_TYPE" "mock",
    apiKey := getEnvDefault env "BROKER_API_KEY" "",
    apiSecret := getEnvDefault env "BROKER_API_SECRET" "",
    baseURL := getEnvDefault env "BROKER_BASE_URL" "",
    rateLimit :=
      { requestsPerSecond := atoi (getEnvDefault env "BROKER_RATE_LIMIT_RPS" "10"),
        burstSize := atoi (getEnvDefault env "BROKER_RATE_LIMIT_BURST" "20") },
    orderSplitting :=
      { maxOrderSize := if maxOrderSize ≤ 0 then 1000 else maxOrderSize,
        enabled := getEnvDefault env "ORDER_SPLITTING_ENABLED" "true" == "true" } }

/-- loadBrokerConfigFromFile from config.go: an unreadable file leaves the
configuration as loaded from the environment; otherwise every non-empty
(or positive, for the numeric groups) file field overwrites the current
value.  The overwrite is guarded only by the FILE field being set, not by
the environment variable being unset. -/
def loadBrokerConfigFromFile (c : BrokerConfig) (file : Option FileBrokerConfig) :
    BrokerConfig :=
  match file with
  | none => c
  | some f =>
    let c := if f.fileType ≠ "" then { c with brokerType := f.fileType } else c
    let c := if f.apiKey ≠ "" then { c with apiKey := f.apiKey } else c
    let c := if f.apiSecret ≠ "" then { c with apiSecret := f.apiSecret } else c
    let c := if f.baseURL ≠ "" then { c with baseURL := f.baseURL } else c
    let c := if 0 < f.rateLimit.requestsPerSecond then { c with rateLimit := f.rateLimit } else c
    if 0 < f.orderSplitting.maxOrderSize then { c with orderSplitting := f.orderSplitting } else c

/-- Broker part of LoadConfig: environment first, then the file pass when a
config path is set (the default path is non-empty, so the file pass runs
whenever the file is readable). -/
def LoadBrokerConfig (env : String → String) (file : Option FileBrokerConfig) :
    BrokerConfig :=
  let cfg := loadBrokerFromEnv env
  if cfg.configPath ≠ "" then loadBrokerConfigFromFile cfg file else cfg

/-- Decimal digit list of a natural number, most significant digit first:
the fuel-free specification of Nat.toDigitsCore at base 10, used to reason
about the order ids that parseRows renders with Sprintf. -/
def decimalDigits (n : Nat) : List Char :=
  if _h : n / 10 = 0 then [Nat.digitChar (n % 10)]
  else decimalDigits (n / 10) ++ [Nat.digitChar (n % 10)]
decreasing_by
  omega

/-- Numeric value of a decimal digit character. -/
def digitVal (c : Char) : Nat := c.toNat - 48

/-- Value of a most-significant-first decimal digit list. -/
def valOfDigits (l : List Char) : Nat :=
  l.foldl (fun acc c => acc * 10 + digitVal c) 0

/-! Concrete fixtures used by counterexamples and witnesses.  Instant 189000
is Saturday 1970-01-03 10:00 IST, instant 361800 is Monday 1970-01-05 10:00
IST. -/

/-- Fixture order for the dispatcher claims. -/
def oC1 : Order :=
  { id := "K", symbol := "S", exchange := "NSE", price := 100, quantity := 5,
    orderType := "LIMIT", side := "Buy", scheduledTime := 100, createdAt := 90,
    isAMO := false }

/-- Fixture record for oC1. -/
def eC1 : OrderCacheEntry := { order := oC1, expiryTime := 110, createdAt := 90 }

/-- Fixture store holding oC1. -/
def sC1 : StoreState := { records := [("K", eC1)], pending := [("K", 100)] }

/-- Fixture order for the cancellation claim. -/
def oC2 : Order :=
  { id := "M", symbol := "T", exchange := "NSE", price := 50, quantity := 2,
    orderType := "LIMIT", side := "Sell", scheduledTime := 200, createdAt := 190,
    isAMO := false }

/-- Fixture record for oC2. -/
def eC2 : OrderCacheEntry := { order := oC2, expiryTime := 210, createdAt := 190 }

/-- Fixture store holding oC2. -/
def sC2 : StoreState := { records := [("M", eC2)], pending := [("M", 200)] }

/-- The order parseRows produces for a single-lot row of symbol XYZ scheduled
at the Monday instant 361800, quantity 10. -/
def oC3w : Order :=
  { id := "XYZ:361800", symbol := "XYZ", exchange := "NSE", price := 100,
    quantity := 10, orderType := "LIMIT", side := "Buy", scheduledTime := 361800,
    createdAt := 0, isAMO := false }

/-- Fixture order for the due-query boundary claim. -/
def oC5 : Order :=
  { id := "A", symbol := "U", exchange := "NSE", price := 1, quantity := 1,
    orderType := "LIMIT", side := "Buy", scheduledTime := 100, createdAt := 90,
    isAMO := false }

/-- Fixture record for oC5 whose expiry is instant 110. -/
def eC5 : OrderCacheEntry := { order := oC5, expiryTime := 110, createdAt := 90 }

/-- Fixture store holding oC5. -/
def sC5 : StoreState := { records := [("A", eC5)], pending := [("A", 100)] }

/-- Empty store fixture for the insert claims. -/
def sC6 : StoreState := { records := [], pending := [] }

/-- Fixture order for the idempotent-insert claim. -/
def oC6 : Order :=
  { id := "B", symbol := "V", exchange := "NSE", price := 7, quantity := 3,
    orderType := "LIMIT", side := "Buy", scheduledTime := 50, createdAt := 40,
    isAMO := false }

/-- Fixture order for the expired-insert claim. -/
def oC7 : Order :=
  { id := "C", symbol := "W", exchange := "NSE", price := 9, quantity := 4,
    orderType := "LIMIT", side := "Sell", scheduledTime := 60, createdAt := 40,
    isAMO := false }

/-- Empty store fixture for the expired-insert claim. -/
def sC7 : StoreState := { records := [], pending := [] }

/-- Environment fixture that sets only BROKER_TYPE, to the value kite. -/
def envC8 : String → String :=
  fun key => if key = "BROKER_TYPE" then "kite" else ""

/-- Broker config file fixture whose only set field is type, with value
mock. -/
def fileC8 : FileBrokerConfig :=
  { fileType := "mock", apiKey := "", apiSecret := "", baseURL := "",
    rateLimit := { requestsPerSecond := 0, burstSize := 0 },
    orderSplitting := { maxOrderSize := 0, enabled := false } }

/-- Kite order request fixture for the endpoint claim. -/
def reqC9 : KiteOrderRequest :=
  { exchange := "NSE", tradingsymbol := "XYZ", transactionType := "BUY",
    orderType := "LIMIT", variety := "regular", quantity := 5, price := 100,
    product := "CNC", validity := "DAY" }

/-! Association-list facts about the modelled Redis key space. -/

/-- Deleting a key makes its lookup fail. -/
theorem lookupKey_delKey_self {α : Type} (l : List (String × α)) (k : String) :
    lookupKey (delKey l k) k = none := by
  induction l with
  | nil => rfl
  | cons p rest ih =>
    obtain ⟨a, v⟩ := p
    by_cases hak : a = k
    · simpa [delKey, List.filter_cons, hak] using ih
    · simpa [delKey, List.filter_cons, hak, lookupKey] using ih

/-- Deleting one key leaves the lookup of any other key unchanged. -/
theorem lookupKey_delKey_ne {α : Type} (l : List (String × α)) (k k1 : String)
    (h : k1 ≠ k) : lookupKey (delKey l k) k1 = lookupKey l k1 := by
  induction l with
  | nil => rfl
  | cons p rest ih =>
    obtain ⟨a, v⟩ := p
    by_cases hak : a = k
    · subst hak
      simp [delKey, List.filter_cons, lookupKey, Ne.symm h] at ih ⊢
      exact ih
    · by_cases ha1 : a = k1
      · subst ha1
        simp [delKey, List.filter_cons, lookupKey, h]
      · simp [delKey, List.filter_cons, lookupKey, hak, ha1] at ih ⊢
        exact ih

/-- A successful lookup locates a stored pair. -/
theorem lookupKey_mem {α : Type} (l : List (String × α)) (k : String) (v : α)
    (h : lookupKey l k = some v) : (k, v) ∈ l := by
  induction l with
  | nil => simp [lookupKey] at h
  | cons p rest ih =>
    obtain ⟨a, w⟩ := p
    by_cases hak : a = k
    · subst hak
      simp [lookupKey] at h
      subst h
      exact List.mem_cons_self _ _
    · simp [lookupKey, hak] at h
      exact List.mem_cons_of_mem _ (ih h)

/-- Membership in a deletion result means membership before, at another
key. -/
theorem mem_delKey {α : Type} (l : List (String × α)) (k : String)
    (p : String × α) (h : p ∈ delKey l k) : p ∈ l ∧ p.1 ≠ k := by
  unfold delKey at h
  have := List.mem_filter.mp h
  exact ⟨this.1, by simpa using this.2⟩

/-- Replacing the value under a key leaves exactly one entry for that key
whenever the key space held at most one. -/
theorem countKey_setKey {α : Type} (l : List (String × α)) (k : String) (v : α) :
    countKey (setKey l k v) k = if countKey l k = 0 then 1 else countKey l k := by
  induction l with
  | nil => simp [setKey, countKey]
  | cons p rest ih =>
    obtain ⟨a, w⟩ := p
    by_cases hak : a = k
    · subst hak
      simp [setKey, countKey, List.filter_cons]
    · have hset : setKey ((a, w) :: rest) k v = (a, w) :: setKey rest k v := by
        simp [setKey, hak]
      have hdrop : ∀ tail : List (String × α),
          countKey ((a, w) :: tail) k = countKey tail k := by
        intro tail
        simp [countKey, List.filter_cons, hak]
      rw [hset, hdrop (setKey rest k v), hdrop rest, ih]

/-! Well-formedness facts about store states. -/

/-- In a well-formed store every record is stored under its own order id. -/
theorem wf_records_id (s : StoreState) (hwf : wfStore s = true)
    (k : String) (e : OrderCacheEntry) (h : lookupKey s.records k = some e) :
    e.order.id = k := by
  have hmem := lookupKey_mem _ _ _ h
  unfold wfStore at hwf
  rw [Bool.and_eq_true] at hwf
  have := (List.all_eq_true.mp hwf.1) _ hmem
  simpa using this

/-- In a well-formed store a pending member with a live record scores the
record's scheduled time. -/
theorem wf_pending_score (s : StoreState) (hwf : wfStore s = true)
    (k : String) (t : Instant) (hmem : (k, t) ∈ s.pending)
    (e : OrderCacheEntry) (h : lookupKey s.records k = some e) :
    e.order.scheduledTime = t := by
  unfold wfStore at hwf
  rw [Bool.and_eq_true] at hwf
  have hx := (List.all_eq_true.mp hwf.2) _ hmem
  simpa [h] using hx

/-- RemoveOrder keeps a store well-formed. -/
theorem wfStore_RemoveOrder (s : StoreState) (orderID : String)
    (hwf : wfStore s = true) : wfStore (RemoveOrder s orderID) = true := by
  unfold wfStore at hwf ⊢
  rw [Bool.and_eq_true] at hwf ⊢
  obtain ⟨hrec, hpend⟩ := hwf
  constructor
  · apply List.all_eq_true.mpr
    intro p hp
    exact (List.all_eq_true.mp hrec) _ (mem_delKey _ _ _ hp).1
  · apply List.all_eq_true.mpr
    intro p hp
    obtain ⟨hmem, hne⟩ := mem_delKey _ _ _ hp
    have hl : lookupKey (delKey s.records orderID) p.1 = lookupKey s.records p.1 :=
      lookupKey_delKey_ne _ _ _ hne
    show (match lookupKey (delKey s.records orderID) p.1 with
          | some entry => decide (entry.order.scheduledTime = p.2)
          | none => true) = true
    rw [hl]
    exact (List.all_eq_true.mp hpend) _ hmem

/-- Membership in the due-id query names a pending member scored at most
now. -/
theorem dueIds_mem (s : StoreState) (now : Instant) (orderID : String)
    (h : orderID ∈ dueIds s now) : ∃ t, (orderID, t) ∈ s.pending ∧ t ≤ now := by
  unfold dueIds at h
  obtain ⟨p, hp, hpe⟩ := List.mem_map.mp h
  obtain ⟨a, t⟩ := p
  obtain ⟨hmem, hcond⟩ := List.mem_filter.mp hp
  simp only at hpe
  subst hpe
  exact ⟨t, hmem, by simpa using hcond⟩

/-! Facts about the due-order query loop. -/

/-- The due-query loop never creates records. -/
theorem processDue_records_none (now : Instant) (ids : List String) :
    ∀ (s : StoreState) (k : String), lookupKey s.records k = none →
      lookupKey (processDue now s ids).2.records k = none := by
  induction ids with
  | nil =>
    intro s k h
    simpa [processDue] using h
  | cons orderID rest ih =>
    intro s k h
    simp only [processDue]
    cases hlk : lookupKey s.records orderID with
    | none =>
      simp only [hlk]
      exact ih _ _ h
    | some entry =>
      simp only [hlk]
      by_cases hexp : entry.expiryTime < now
      · rw [if_pos hexp]
        apply ih
        by_cases hk : k = orderID
        · subst hk
          exact lookupKey_delKey_self _ _
        · show lookupKey (delKey s.records orderID) k = none
          rw [lookupKey_delKey_ne _ _ _ hk]
          exact h
      · rw [if_neg hexp]
        exact ih _ _ h

/-- A record surviving the due-query loop was present before it, with the
same payload. -/
theorem processDue_records_some (now : Instant) (ids : List String) :
    ∀ (s : StoreState) (k : String) (e : OrderCacheEntry),
      lookupKey (processDue now s ids).2.records k = some e →
      lookupKey s.records k = some e := by
  induction ids with
  | nil =>
    intro s k e h
    simpa [processDue] using h
  | cons orderID rest ih =>
    intro s k e h
    simp only [processDue] at h
    cases hlk : lookupKey s.records orderID with
    | none =>
      simp only [hlk] at h
      exact ih { records := s.records, pending := delKey s.pending orderID } _ _ h
    | some entry =>
      simp only [hlk] at h
      by_cases hexp : entry.expiryTime < now
      · rw [if_pos hexp] at h
        have h2 := ih _ _ _ h
        by_cases hk : k = orderID
        · rw [show (RemoveOrder s orderID).records = delKey s.records orderID from rfl,
            hk, lookupKey_delKey_self] at h2
          exact absurd h2 (by simp)
        · rw [show (RemoveOrder s orderID).records = delKey s.records orderID from rfl,
            lookupKey_delKey_ne _ _ _ hk] at h2
          exact h2
      · rw [if_neg hexp] at h
        exact ih _ _ _ h

/-- Every order the due-query loop returns comes from a record present at
loop entry under one of the queried ids, with its expiry not strictly before
now. -/
theorem processDue_mem (now : Instant) (ids : List String) :
    ∀ (s : StoreState) (o : Order), o ∈ (processDue now s ids).1 →
      ∃ orderID, orderID ∈ ids ∧ ∃ e, lookupKey s.records orderID = some e ∧
        e.order = o ∧ ¬ e.expiryTime < now := by
  induction ids with
  | nil =>
    intro s o h
    simp [processDue] at h
  | cons orderID rest ih =>
    intro s o h
    simp only [processDue] at h
    cases hlk : lookupKey s.records orderID with
    | none =>
      simp only [hlk] at h
      obtain ⟨id1, hin, e, hlook, heo, hexp⟩ := ih _ _ h
      exact ⟨id1, List.mem_cons_of_mem _ hin, e, hlook, heo, hexp⟩
    | some entry =>
      simp only [hlk] at h
      by_cases hexp : entry.expiryTime < now
      · rw [if_pos hexp] at h
        obtain ⟨id1, hin, e, hlook, heo, hex⟩ := ih _ _ h
        by_cases hk : id1 = orderID
        · subst hk
          rw [show (RemoveOrder s id1).records = delKey s.records id1 from rfl,
            lookupKey_delKey_self] at hlook
          exact absurd hlook (by simp)
        · rw [show (RemoveOrder s orderID).records = delKey s.records orderID from rfl,
            lookupKey_delKey_ne _ _ _ hk] at hlook
          exact ⟨id1, List.mem_cons_of_mem _ hin, e, hlook, heo, hex⟩
      · rw [if_neg hexp] at h
        simp only at h
        rcases List.mem_cons.mp h with h1 | h1
        · exact ⟨orderID, List.mem_cons_self _ _, entry, hlk, h1.symm, hexp⟩
        · obtain ⟨id1, hin, e, hlook, heo, hex⟩ := ih _ _ h1
          exact ⟨id1, List.mem_cons_of_mem _ hin, e, hlook, heo, hex⟩

/-- A queried id whose record (if any) is strictly expired is absent from
the records after the due-query loop. -/
theorem processDue_evict (now : Instant) (ids : List String) :
    ∀ (s : StoreState) (orderID : String), orderID ∈ ids →
      (∀ e, lookupKey s.records orderID = some e → e.expiryTime < now) →
      lookupKey (processDue now s ids).2.records orderID = none := by
  induction ids with
  | nil =>
    intro s orderID h _
    simp at h
  | cons id0 rest ih =>
    intro s orderID hmem hexp
    simp only [processDue]
    cases hlk : lookupKey s.records id0 with
    | none =>
      simp only [hlk]
      by_cases heq : orderID = id0
      · subst heq
        exact processDue_records_none now rest _ _ hlk
      · rcases List.mem_cons.mp hmem with h1 | h1
        · exact absurd h1 heq
        · exact ih _ _ h1 hexp
    | some entry =>
      simp only [hlk]
      by_cases hex : entry.expiryTime < now
      · rw [if_pos hex]
        by_cases heq : orderID = id0
        · rw [heq]
          exact processDue_records_none now rest _ _ (lookupKey_delKey_self _ _)
        · rcases List.mem_cons.mp hmem with h1 | h1
          · exact absurd h1 heq
          · apply ih _ _ h1
            intro e he
            apply hexp
            rw [show (RemoveOrder s id0).records = delKey s.records id0 from rfl,
              lookupKey_delKey_ne _ _ _ heq] at he
            exact he
      · rw [if_neg hex]
        by_cases heq : orderID = id0
        · rw [heq] at hexp
          exact absurd (hexp entry hlk) hex
        · rcases List.mem_cons.mp hmem with h1 | h1
          · exact absurd h1 heq
          · simpa using ih _ _ h1 hexp

/-- Claim C5 counterexample: at the boundary instant now equal to the
record's expiry, GetOrdersDueForExecution still returns the order, because
the code evicts only when now is strictly after the expiry; so the claimed
guarantee that no due query ever returns a record with expiry at most now is
false. -/
theorem due_expiry_boundary_cex :
    oC5 ∈ (GetOrdersDueForExecution sC5 110).1
    ∧ lookupKey sC5.records oC5.id = some eC5
    ∧ eC5.expiryTime ≤ 110 := by
  decide

/-- Claim C5 (amended): for every well-formed store state and instant now,
every order returned by GetOrdersDueForExecution has its scheduled instant
at most now and comes from a record whose expiry is at least now (records
with expiry strictly before now are never returned), and every queried
record strictly past its expiry is evicted by the query. -/
theorem due_filter_eviction (s : StoreState) (now : Instant)
    (hwf : wfStore s = true) :
    (∀ o ∈ (GetOrdersDueForExecution s now).1,
        o.scheduledTime ≤ now ∧
        ∃ e, lookupKey s.records o.id = some e ∧ e.order = o ∧ now ≤ e.expiryTime)
    ∧ ∀ orderID ∈ dueIds s now,
        (∀ e, lookupKey s.records orderID = some e → e.expiryTime < now) →
        lookupKey (GetOrdersDueForExecution s now).2.records orderID = none := by
  constructor
  · intro o ho
    obtain ⟨orderID, hin, e, hlook, heo, hexp⟩ :=
      processDue_mem now (dueIds s now) s o ho
    obtain ⟨t, hpt, htle⟩ := dueIds_mem s now orderID hin
    have hid : e.order.id = orderID := wf_records_id s hwf _ _ hlook
    have hsched : e.order.scheduledTime = t := wf_pending_score s hwf _ _ hpt _ hlook
    subst heo
    refine ⟨by rw [hsched]; exact htle, e, ?_, rfl, Nat.le_of_not_lt hexp⟩
    rw [hid]
    exact hlook
  · intro orderID hin hexp
    exact processDue_evict now (dueIds s now) s orderID hin hexp

/-- Witness for due_filter_eviction: the fixture store at instant 105, where
the fixture order is due and unexpired. -/
theorem due_filter_eviction_witness :
    oC5.scheduledTime ≤ 105 ∧
    ∃ e, lookupKey sC5.records oC5.id = some e ∧ e.order = oC5 ∧
      105 ≤ e.expiryTime :=
  (due_filter_eviction sC5 105 (by decide)).1 oC5 (by decide)

/-! Decimal rendering facts, used for the distinctness of the lot order
ids that parseRows builds with Sprintf. -/

/-- A digit character decodes back to its digit. -/
theorem digitVal_digitChar : ∀ d, d < 10 → digitVal (Nat.digitChar d) = d := by
  decide

/-- Appending one digit multiplies the decoded value by ten and adds the
digit. -/
theorem valOfDigits_append_one (l : List Char) (c : Char) :
    valOfDigits (l ++ [c]) = valOfDigits l * 10 + digitVal c := by
  unfold valOfDigits
  rw [List.foldl_append]
  rfl

/-- Decoding is a left inverse of the decimal digit rendering. -/
theorem valOfDigits_decimalDigits (n : Nat) :
    valOfDigits (decimalDigits n) = n := by
  induction n using Nat.strong_induction_on with
  | _ n ih =>
    unfold decimalDigits
    split
    · rename_i h
      have hv : digitVal (Nat.digitChar (n % 10)) = n % 10 :=
        digitVal_digitChar _ (by omega)
      unfold valOfDigits
      simp only [List.foldl_cons, List.foldl_nil, hv]
      omega
    · rename_i h
      rw [valOfDigits_append_one, ih (n / 10) (by omega),
        digitVal_digitChar _ (by omega)]
      omega

/-- The fuelled core of Nat.repr agrees with the fuel-free digit rendering
whenever the fuel exceeds the number. -/
theorem toDigitsCore_decimal (fuel : Nat) :
    ∀ (n : Nat) (acc : List Char), n < fuel →
      Nat.toDigitsCore 10 fuel n acc = decimalDigits n ++ acc := by
  induction fuel with
  | zero =>
    intro n acc h
    omega
  | succ fuel ih =>
    intro n acc h
    simp only [Nat.toDigitsCore]
    by_cases h0 : n / 10 = 0
    · rw [if_pos h0]
      unfold decimalDigits
      rw [dif_pos h0]
      rfl
    · rw [if_neg h0, ih (n / 10) _ (by omega)]
      conv_rhs => unfold decimalDigits
      rw [dif_neg h0]
      simp

/-- Nat.repr renders exactly the decimal digit list. -/
theorem natRepr_decimalDigits (n : Nat) :
    Nat.repr n = (decimalDigits n).asString := by
  show (Nat.toDigits 10 n).asString = _
  rw [Nat.toDigits, toDigitsCore_decimal (n + 1) n [] (Nat.lt_succ_self n),
    List.append_nil]

/-- Strings with equal character data are equal. -/
theorem string_data_inj {s t : String} (h : s.data = t.data) : s = t := by
  cases s
  cases t
  exact congrArg String.mk h

/-- Appending concatenates the character data. -/
theorem string_data_append (s t : String) : (s ++ t).data = s.data ++ t.data := by
  cases s
  cases t
  rfl

/-- Appending on the left is cancellable. -/
theorem string_append_right_inj (s : String) {t1 t2 : String}
    (h : s ++ t1 = s ++ t2) : t1 = t2 := by
  apply string_data_inj
  have h2 := congrArg String.data h
  rw [string_data_append, string_data_append] at h2
  exact List.append_cancel_left h2

/-- The decimal rendering used for lot indices is injective. -/
theorem natRepr_injective : Function.Injective Nat.repr := by
  intro a b h
  rw [natRepr_decimalDigits, natRepr_decimalDigits] at h
  have hd : decimalDigits a = decimalDigits b := by
    have h2 := congrArg String.data h
    simpa [List.asString] using h2
  have h3 := congrArg valOfDigits hd
  rwa [valOfDigits_decimalDigits, valOfDigits_decimalDigits] at h3

/-- Sum of the lot quantity pattern over a range. -/
theorem sum_range_ite (b r : Nat) : ∀ m : Nat,
    ((List.range m).map (fun i => if i + 1 ≤ r then b + 1 else b)).sum
      = m * b + min r m := by
  intro m
  induction m with
  | zero => simp
  | succ m ih =>
    rw [List.range_succ, List.map_append, List.sum_append, ih]
    simp only [List.map_cons, List.map_nil, List.sum_cons, List.sum_nil]
    rw [Nat.succ_mul]
    by_cases h : m + 1 ≤ r
    · rw [if_pos h]
      omega
    · rw [if_neg h]
      omega

/-- With positive total quantity and lot count, the raw row values pass the
clamps unchanged, and an unexpired row reaches the order-construction
loop. -/
theorem parseRowOrders_pos (symbol exchange side : String) (price : Int)
    (sched now : Instant) (Q N : Nat) (hQ : 1 ≤ Q) (hN : 1 ≤ N)
    (hpast : ¬ sched < now) :
    parseRowOrders symbol exchange side price sched now (Q : Int) (N : Int) =
      buildRowOrders symbol exchange side price sched now Q N := by
  have h1 : clampLots (N : Int) = N := by
    unfold clampLots
    rw [if_neg (by omega)]
    omega
  have h2 : clampQuantity (Q : Int) = Q := by
    unfold clampQuantity
    rw [if_neg (by omega)]
    omega
  simp only [parseRowOrders, h1, h2, if_neg hpast]

/-- Claim C4 (confirmed): for a source row with total quantity Q at least 1
split over N at least 1 lots whose scheduled instant is not in the past, the
ingester produces exactly N orders; their quantities sum to Q; the order at
position i carries Q / N + 1 when i is below Q mod N and Q / N otherwise, so
the first Q mod N orders carry the extra unit; any two produced quantities
differ by at most one; and the produced ids are pairwise distinct. -/
theorem lot_split_distribution (symbol exchange side : String) (price : Int)
    (sched now : Instant) (Q N : Nat) (hQ : 1 ≤ Q) (hN : 1 ≤ N)
    (hpast : ¬ sched < now) :
    (parseRowOrders symbol exchange side price sched now (Q : Int) (N : Int)).length = N
    ∧ ((parseRowOrders symbol exchange side price sched now (Q : Int) (N : Int)).map
        (fun o => o.quantity)).sum = Q
    ∧ (∀ i, ∀ hi : i < (parseRowOrders symbol exchange side price sched now
          (Q : Int) (N : Int)).length,
        ((parseRowOrders symbol exchange side price sched now (Q : Int) (N : Int)).get
            ⟨i, hi⟩).quantity
          = if i < Q % N then Q / N + 1 else Q / N)
    ∧ (∀ o1 ∈ parseRowOrders symbol exchange side price sched now (Q : Int) (N : Int),
       ∀ o2 ∈ parseRowOrders symbol exchange side price sched now (Q : Int) (N : Int),
        o1.quantity ≤ o2.quantity + 1)
    ∧ ((parseRowOrders symbol exchange side price sched now (Q : Int) (N : Int)).map
        (fun o => o.id)).Nodup := by
  rw [parseRowOrders_pos symbol exchange side price sched now Q N hQ hN hpast]
  have hquant : ∀ o ∈ buildRowOrders symbol exchange side price sched now Q N,
      o.quantity = Q / N ∨ o.quantity = Q / N + 1 := by
    intro o ho
    unfold buildRowOrders at ho
    obtain ⟨i, hi, rfl⟩ := List.mem_map.mp ho
    by_cases h : i + 1 ≤ Q % N
    · right
      simp [h]
    · left
      simp [h]
  refine ⟨?_, ?_, ?_, ?_, ?_⟩
  · simp [buildRowOrders]
  · have hmap : ((buildRowOrders symbol exchange side price sched now Q N).map
        (fun o => o.quantity))
        = (List.range N).map (fun i => if i + 1 ≤ Q % N then Q / N + 1 else Q / N) := by
      unfold buildRowOrders
      rw [List.map_map]
      rfl
    rw [hmap, sum_range_ite]
    have hmod : Q % N < N := Nat.mod_lt _ (by omega)
    have hdm := Nat.div_add_mod Q N
    omega
  · intro i hi
    have hlen : i < N := by
      simpa [buildRowOrders] using hi
    unfold buildRowOrders
    simp only [List.get_eq_getElem, List.getElem_map, List.getElem_range]
    rcases Nat.lt_or_ge i (Q % N) with h | h
    · rw [if_pos (show i + 1 ≤ Q % N by omega)]
      simp only [if_pos h]
    · rw [if_neg (show ¬ i + 1 ≤ Q % N by omega)]
      simp only [if_neg (show ¬ i < Q % N by omega)]
  · intro o1 h1 o2 h2
    rcases hquant o1 h1 with hq1 | hq1 <;> rcases hquant o2 h2 with hq2 | hq2 <;> omega
  · unfold buildRowOrders
    rw [List.map_map]
    by_cases hl : 1 < N
    · have hfun : ((fun o : Order => o.id) ∘ fun i =>
          ({ id := if 1 < N then GenerateOrderID symbol sched ++ "-" ++ Nat.repr (i + 1)
                    else GenerateOrderID symbol sched,
             symbol := symbol, exchange := exchange, price := price,
             quantity := if i + 1 ≤ Q % N then Q / N + 1 else Q / N,
             orderType := "LIMIT", side := side, scheduledTime := sched,
             createdAt := now, isAMO := shouldUseAMO sched } : Order))
          = fun i => (GenerateOrderID symbol sched ++ "-") ++ Nat.repr (i + 1) := by
        funext i
        simp [Function.comp, hl]
      rw [hfun]
      refine List.Nodup.map ?_ (List.nodup_range N)
      intro a b hab
      have h1 := string_append_right_inj _ hab
      have h2 := natRepr_injective h1
      omega
    · have : N = 1 := by omega
      subst this
      simp [List.range_succ]


/-- Witness for lot_split_distribution: the quantity 10 over 3 lots scenario,
giving three orders of quantities 4, 3, 3. -/
theorem lot_split_distribution_witness :
    (parseRowOrders "XYZ" "NSE" "Buy" 100 361800 0 ((10 : Nat) : Int)
      ((3 : Nat) : Int)).length = 3
    ∧ ((parseRowOrders "XYZ" "NSE" "Buy" 100 361800 0 ((10 : Nat) : Int)
        ((3 : Nat) : Int)).map (fun o => o.quantity)).sum = 10
    ∧ ((parseRowOrders "XYZ" "NSE" "Buy" 100 361800 0 ((10 : Nat) : Int)
        ((3 : Nat) : Int)).map (fun o => o.id)).Nodup :=
  ⟨(lot_split_distribution "XYZ" "NSE" "Buy" 100 361800 0 10 3 (by decide) (by decide)
      (by decide)).1,
   (lot_split_distribution "XYZ" "NSE" "Buy" 100 361800 0 10 3 (by decide) (by decide)
      (by decide)).2.1,
   (lot_split_distribution "XYZ" "NSE" "Buy" 100 361800 0 10 3 (by decide) (by decide)
      (by decide)).2.2.2.2⟩

/-- Claim C3 counterexample: instant 189000 is Saturday 1970-01-03 10:00
IST, inside the 09:00 to 15:30 window; the ingester stamps is_amo false on
the produced order while the MarketClock classifies the instant as not Open
(weekend), so the claimed equality between is_amo and the MarketClock
classification fails. -/
theorem amo_weekend_stamp_cex :
    ((parseRowOrders "XYZ" "NSE" "Buy" 100 189000 0 10 1).map (fun o => o.isAMO))
      = [false]
    ∧ IsMarketOpen 189000 = false
    ∧ marketHoursShouldUseAMO 189000 = true := by
  decide

/-- Claim C3 (amended): every order the ingester produces carries is_amo
equal to the reader's own time-of-day rule for its scheduled instant — true
exactly when the time of day falls outside 09:00 to 15:30 IST, with no
weekday test — and that rule agrees with the MarketClock classification
being different from Open on Monday-to-Friday instants (it can disagree on
weekends). -/
theorem amo_stamp_time_of_day (symbol exchange side : String) (price : Int)
    (sched now : Instant) (qRaw lRaw : Int) (o : Order)
    (ho : o ∈ parseRowOrders symbol exchange side price sched now qRaw lRaw) :
    o.isAMO = shouldUseAMO sched
    ∧ (shouldUseAMO sched = true ↔
        (istMinutesFromMidnight sched < 540 ∨ 930 ≤ istMinutesFromMidnight sched))
    ∧ ∀ t : Instant, istWeekday t ≠ 0 → istWeekday t ≠ 6 →
        shouldUseAMO t = marketHoursShouldUseAMO t := by
  refine ⟨?_, by simp [shouldUseAMO], ?_⟩
  · simp only [parseRowOrders] at ho
    by_cases hp : sched < now
    · rw [if_pos hp] at ho
      simp at ho
    · rw [if_neg hp] at ho
      unfold buildRowOrders at ho
      obtain ⟨i, hi, rfl⟩ := List.mem_map.mp ho
      rfl
  · intro t h0 h6
    simp only [shouldUseAMO, marketHoursShouldUseAMO, IsMarketOpen]
    have hw : ¬ (istWeekday t = 6 ∨ istWeekday t = 0) := by
      intro hc
      rcases hc with hc | hc
      · exact h6 hc
      · exact h0 hc
    rw [if_neg hw]
    by_cases hm : 540 ≤ istMinutesFromMidnight t ∧ istMinutesFromMidnight t < 930
    · have hno : ¬ (istMinutesFromMidnight t < 540 ∨ 930 ≤ istMinutesFromMidnight t) := by
        omega
      simp [hm, hno]
    · have hyes : istMinutesFromMidnight t < 540 ∨ 930 ≤ istMinutesFromMidnight t := by
        omega
      simp [hm, hyes]

/-- Witness for amo_stamp_time_of_day: the single order of a one-lot row
scheduled at the Monday instant 361800. -/
theorem amo_stamp_time_of_day_witness :
    oC3w.isAMO = shouldUseAMO 361800
    ∧ (shouldUseAMO 361800 = true ↔
        (istMinutesFromMidnight 361800 < 540 ∨ 930 ≤ istMinutesFromMidnight 361800))
    ∧ ∀ t : Instant, istWeekday t ≠ 0 → istWeekday t ≠ 6 →
        shouldUseAMO t = marketHoursShouldUseAMO t :=
  amo_stamp_time_of_day "XYZ" "NSE" "Buy" 100 361800 0 10 1 oC3w (by decide)

/-- Claim C1 counterexample: in the broker-failure path the dispatcher emits
the profiling outcome first and removes the order only afterwards, so
removal is not invoked before the outcome is surfaced (it is invoked, but
after the emission). -/
theorem removal_after_emit_cex :
    removalBeforeEmit (executeOrder sC1 oC1 .acquired .brokerError).1 = false
    ∧ Event.removeOrder ∈ (executeOrder sC1 oC1 .acquired .brokerError).1
    ∧ Event.emitOutcome false ∈ (executeOrder sC1 oC1 .acquired .brokerError).1 := by
  decide

/-- Claim C1 (amended): once the execution lock is acquired, the dispatcher
invokes OrderStore.remove for the order id regardless of the broker outcome
— before the outcome is emitted on the success path, after it on failure
paths — the resulting store is exactly the store with the order removed,
and no subsequent due query on that store returns an order with the same id
(hence never the same id and scheduled-instant pair). -/
theorem dispatch_terminal_removal (s : StoreState) (order : Order)
    (broker : BrokerOutcome) (hwf : wfStore s = true) :
    Event.removeOrder ∈ (executeOrder s order .acquired broker).1
    ∧ (∀ success, broker = BrokerOutcome.completed success →
        removalBeforeEmit (executeOrder s order .acquired broker).1 = true)
    ∧ (executeOrder s order .acquired broker).2 = RemoveOrder s order.id
    ∧ ∀ (now : Instant) (o2 : Order),
        o2 ∈ (GetOrdersDueForExecution (executeOrder s order .acquired broker).2 now).1 →
        o2.id ≠ order.id := by
  have hpost : (executeOrder s order .acquired broker).2 = RemoveOrder s order.id := by
    cases broker <;> rfl
  refine ⟨?_, ?_, hpost, ?_⟩
  · cases broker <;> simp [executeOrder]
  · intro success hb
    subst hb
    rfl
  · intro now o2 hmem
    rw [hpost] at hmem
    have hwf2 := wfStore_RemoveOrder s order.id hwf
    obtain ⟨orderID, hin, e, hlook, heo, hexp⟩ :=
      processDue_mem now (dueIds (RemoveOrder s order.id) now)
        (RemoveOrder s order.id) o2 hmem
    have hid : e.order.id = orderID := wf_records_id _ hwf2 _ _ hlook
    have hne : orderID ≠ order.id := by
      intro h
      rw [show (RemoveOrder s order.id).records = delKey s.records order.id from rfl,
        h, lookupKey_delKey_self] at hlook
      cases hlook
    intro hcontra
    apply hne
    calc orderID = e.order.id := hid.symm
      _ = o2.id := by rw [heo]
      _ = order.id := hcontra

/-- Witness for dispatch_terminal_removal: the fixture store, lock acquired,
broker completing successfully. -/
theorem dispatch_terminal_removal_witness :
    removalBeforeEmit (executeOrder sC1 oC1 .acquired (.completed true)).1 = true :=
  (dispatch_terminal_removal sC1 oC1 (.completed true) (by decide)).2.1 true rfl

/-- Claim C2 counterexample: with the lock held and the rate-gate wait
cancelled, the record present before the attempt is gone afterwards — the
order is evicted rather than left in the store for the next run. -/
theorem cancelled_gate_eviction_cex :
    lookupKey sC2.records oC2.id = some eC2
    ∧ lookupKey (executeOrder sC2 oC2 .acquired .gateCancelled).2.records oC2.id = none
    ∧ lookupKey (executeOrder sC2 oC2 .acquired .gateCancelled).2.pending oC2.id = none := by
  decide

/-- Claim C2 (amended): when the context is cancelled during the rate-gate
wait, the worker makes no broker call and the lock is released, but the
dispatcher treats the cancellation like any other execution error: it
removes the order from the store, so the record is not left in place for
the next run. -/
theorem cancelled_gate_no_call (s : StoreState) (order : Order) :
    executeOrder s order .acquired .gateCancelled
      = ([Event.lockAttempt .acquired, Event.rateGateWait, Event.emitOutcome false,
          Event.removeOrder, Event.releaseLock], RemoveOrder s order.id)
    ∧ Event.brokerCall ∉ (executeOrder s order .acquired .gateCancelled).1
    ∧ Event.releaseLock ∈ (executeOrder s order .acquired .gateCancelled).1
    ∧ lookupKey (executeOrder s order .acquired .gateCancelled).2.records order.id
        = none := by
  refine ⟨rfl, by simp [executeOrder], by simp [executeOrder], ?_⟩
  exact lookupKey_delKey_self _ _

/-- Claim C6 (confirmed): inserting the same order twice in a row with a
valid expiry succeeds both times and leaves exactly one record under the
order id and exactly one pending member for it, provided the key space held
at most one entry per key beforehand (as a Redis key space always does). -/
theorem store_insert_idempotent (s : StoreState) (o : Order) (e now : Instant)
    (he : now < e) (hr : countKey s.records o.id ≤ 1)
    (hp : countKey s.pending o.id ≤ 1) :
    (StoreOrder s o e now).1 = Except.ok ()
    ∧ (StoreOrder (StoreOrder s o e now).2 o e now).1 = Except.ok ()
    ∧ countKey (StoreOrder (StoreOrder s o e now).2 o e now).2.records o.id = 1
    ∧ countKey (StoreOrder (StoreOrder s o e now).2 o e now).2.pending o.id = 1 := by
  have hne : ¬ e ≤ now := Nat.not_le.mpr he
  refine ⟨by simp [StoreOrder, hne], by simp [StoreOrder, hne], ?_, ?_⟩
  · simp only [StoreOrder, if_neg hne]
    rw [countKey_setKey, countKey_setKey]
    have hc : countKey s.records o.id = 0 ∨ countKey s.records o.id = 1 := by omega
    rcases hc with h | h <;> simp [h]
  · simp only [StoreOrder, if_neg hne]
    rw [countKey_setKey, countKey_setKey]
    have hc : countKey s.pending o.id = 0 ∨ countKey s.pending o.id = 1 := by omega
    rcases hc with h | h <;> simp [h]

/-- Witness for store_insert_idempotent: the fixture order inserted twice
into the empty store with expiry 60 at instant 40. -/
theorem store_insert_idempotent_witness :
    (StoreOrder sC6 oC6 60 40).1 = Except.ok ()
    ∧ (StoreOrder (StoreOrder sC6 oC6 60 40).2 oC6 60 40).1 = Except.ok ()
    ∧ countKey (StoreOrder (StoreOrder sC6 oC6 60 40).2 oC6 60 40).2.records oC6.id = 1
    ∧ countKey (StoreOrder (StoreOrder sC6 oC6 60 40).2 oC6 60 40).2.pending oC6.id = 1 :=
  store_insert_idempotent sC6 oC6 60 40 (by decide) (by decide) (by decide)

/-- Claim C7 (confirmed): StoreOrder fails with the expired error whenever
the expiry is at most now and the store is then unchanged — no record and no
pending member is created; and a row whose scheduled instant is strictly in
the past produces no orders, so its ingestion leaves the store unchanged and
no broker call can ever arise from it. -/
theorem expired_insert_rejected (s : StoreState) (o : Order) (e now : Instant)
    (symbol exchange side : String) (price qRaw lRaw : Int) (sched nowRow : Instant) :
    (e ≤ now → StoreOrder s o e now = (Except.error "expiry time is in the past", s))
    ∧ (sched < nowRow →
        parseRowOrders symbol exchange side price sched nowRow qRaw lRaw = []
        ∧ ingestRow s (parseRowOrders symbol exchange side price sched nowRow qRaw lRaw)
            nowRow = s) := by
  constructor
  · intro h
    simp [StoreOrder, h]
  · intro h
    have hempty : parseRowOrders symbol exchange side price sched nowRow qRaw lRaw = [] := by
      simp [parseRowOrders, h]
    refine ⟨hempty, ?_⟩
    rw [hempty]
    rfl

/-- Witness for expired_insert_rejected: an insert whose expiry equals now,
and a row scheduled 10 seconds before now. -/
theorem expired_insert_rejected_witness :
    StoreOrder sC7 oC7 70 70 = (Except.error "expiry time is in the past", sC7)
    ∧ parseRowOrders "XYZ" "NSE" "Buy" 100 50 60 10 1 = [] :=
  ⟨(expired_insert_rejected sC7 oC7 70 70 "XYZ" "NSE" "Buy" 100 10 1 50 60).1
      (by decide),
   ((expired_insert_rejected sC7 oC7 70 70 "XYZ" "NSE" "Buy" 100 10 1 50 60).2
      (by decide)).1⟩

/-- Claim C8 exhibits a code bug: with BROKER_TYPE set to kite in the
environment and type set to mock in the broker config file, the loaded
configuration carries mock.  Any non-empty file field overwrites the value
read from the environment, although the code's own comment states the file
should override only what is not set in the environment, and the spec states
environment variables take precedence. -/
theorem config_file_overrides_env_bug :
    envC8 "BROKER_TYPE" = "kite"
    ∧ fileC8.fileType = "mock"
    ∧ (LoadBrokerConfig envC8 (some fileC8)).brokerType = "mock" := by
  refine ⟨rfl, rfl, rfl⟩

/-- Claim C9 counterexample: with a configured base URL of
https://example.com, the Kite adapter still sends a regular placement to the
hardcoded production API host rather than to the configured base, and
likewise for the AMO endpoint. -/
theorem kite_base_url_ignored_cex :
    placeOrderURL "https://example.com" reqC9 = "https://api.kite.trade/orders/regular"
    ∧ placeOrderURL "https://example.com" reqC9 ≠ "https://example.com/orders/regular"
    ∧ placeAMOOrderURL "https://example.com" reqC9 ≠ "https://example.com/orders/amo" := by
  refine ⟨rfl, by decide, by decide⟩

/-- Claim C9 (amended): order placements go to fixed endpoints on the
production API host — orders/amo for the amo variety and orders/regular for
every other variety — independently of the configured base URL; the base
URL, with its production default, is used only to build the token-refresh
endpoint. -/
theorem kite_endpoints_fixed (baseURL : String) (orderReq : KiteOrderRequest) :
    placeOrderURL baseURL orderReq
      = (if orderReq.variety = "amo" then "https://api.kite.trade/orders/amo"
         else "https://api.kite.trade/orders/regular")
    ∧ placeAMOOrderURL baseURL orderReq = "https://api.kite.trade/orders/amo"
    ∧ refreshTokenURL (kiteEffectiveBaseURL baseURL)
        = kiteEffectiveBaseURL baseURL ++ "/session/refresh_token" := by
  refine ⟨?_, rfl, rfl⟩
  unfold placeOrderURL placeAMOOrderURL
  rfl

/-- Claim C10 (confirmed): a TryLock backend error makes the dispatcher
remove the order and return without any broker interaction — afterwards the
record is gone, permanently dropping the order with no placement attempt —
while a false TryLock result (lock already held) skips the order without
evicting it and leaves the store untouched. -/
theorem lock_error_drops_order (s : StoreState) (order : Order)
    (broker : BrokerOutcome) :
    executeOrder s order .backendError broker
      = ([Event.lockAttempt .backendError, Event.removeOrder], RemoveOrder s order.id)
    ∧ Event.brokerCall ∉ (executeOrder s order .backendError broker).1
    ∧ lookupKey (executeOrder s order .backendError broker).2.records order.id = none
    ∧ executeOrder s order .alreadyHeld broker
      = ([Event.lockAttempt .alreadyHeld], s)
    ∧ Event.removeOrder ∉ (executeOrder s order .alreadyHeld broker).1
    ∧ Event.brokerCall ∉ (executeOrder s order .alreadyHeld broker).1 := by
  refine ⟨rfl, by simp [executeOrder], ?_, rfl, by simp [executeOrder],
    by simp [executeOrder]⟩
  exact lookupKey_delKey_self _ _

end MachFive
